import Mathlib

/-!
Shallow embedding of the blocks-storage configuration code of the mimir
repository (pkg/storage/tsdb/config.go together with the duration-list
flag helpers that file defines), and proofs about its validators.

Modelling conventions:
* Go int, int64 and time.Duration (nanoseconds) values are modelled as Int;
  Go uint64 values are modelled as Nat.
* A Go function returning error is modelled as returning Option Err
  (none = nil); Err is an inductive enumeration of the distinct error
  values the translated code can produce.
* Go strings are modelled as List Char.
-/

namespace Mimir

/-- One second in nanoseconds (Go time.Second). -/
def second : Int := 1000000000

/-- One minute in nanoseconds (Go time.Minute). -/
def minute : Int := 60 * second

/-- Minimum head-chunks write buffer size, 64 KiB, from the vendored
prometheus tsdb/chunks package (chunks.MinWriteBufferSize). -/
def MinWriteBufferSize : Int := 65536

/-- Maximum head-chunks write buffer size, 8 MiB, from the vendored
prometheus tsdb/chunks package (chunks.MaxWriteBufferSize). -/
def MaxWriteBufferSize : Int := 8388608

/-- Default head-chunks write buffer size, 4 MiB, from the vendored
prometheus tsdb/chunks package (chunks.DefaultWriteBufferSize). -/
def DefaultWriteBufferSize : Int := 4194304

/-- Messages of the errors.Wrap calls in BucketStoreConfig.Validate,
modelled as an enumeration instead of raw strings. -/
inductive WrapMsg where
  | indexCacheConfiguration
  | chunksCacheConfiguration
  | metadataCacheConfiguration
deriving DecidableEq

/-- Error values produced by the validators of config.go.  The named
constructors correspond one to one to the package-level validation error
variables of config.go; wrap models errors.Wrap; sub stands for an
arbitrary error coming out of a sub-validator whose code is outside the
given sources (bucket.Config and the three cache configs). -/
inductive Err where
  | invalidShipConcurrency
  | invalidOpeningConcurrency
  | invalidCompactionInterval
  | invalidCompactionConcurrency
  | invalidWALSegmentSizeBytes
  | invalidStripeSize
  | invalidStreamingBatchSize
  | emptyBlockranges
  | invalidHeadChunksWriteBufferSize
  | wrap (m : WrapMsg) (e : Err)
  | sub (tag : Nat)
deriving DecidableEq

/-- DurationList is the block ranges for a tsdb (a list of time.Duration,
i.e. of int64 nanosecond counts). -/
abbrev DurationList : Type := List Int

/-- TSDBConfig holds the config for TSDB opened in the ingesters.  Fields
and their order follow the Go struct; duration fields are nanoseconds. -/
structure TSDBConfig where
  Dir : String
  BlockRanges : List Int
  Retention : Int
  ShipInterval : Int
  ShipConcurrency : Int
  HeadCompactionInterval : Int
  HeadCompactionConcurrency : Int
  HeadCompactionIdleTimeout : Int
  HeadChunksWriteBufferSize : Int
  HeadChunksEndTimeVariance : Float
  StripeSize : Int
  WALCompressionEnabled : Bool
  WALSegmentSizeBytes : Int
  FlushBlocksOnShutdown : Bool
  CloseIdleTSDBTimeout : Int
  MemorySnapshotOnShutdown : Bool
  HeadChunksWriteQueueSize : Int
  SeriesHashCacheMaxBytes : Nat
  MaxTSDBOpeningConcurrencyOnStartup : Int
  KeepUserTSDBOpenOnShutdown : Bool
  CloseIdleTSDBInterval : Int
  OutOfOrderCapacityMax : Int
  HeadPostingsForMatchersCacheTTL : Int
  HeadPostingsForMatchersCacheSize : Int
  HeadPostingsForMatchersCacheForce : Bool

/-- TSDBConfig.Validate from config.go.  Each Go if/return is one branch,
in source order.  Notes on the translation:
* Go conditions use short-circuit operators; the corresponding
  propositional connectives agree with them because every operand here is
  a pure comparison.
* The Go expression cfg.HeadChunksWriteBufferSize%1024 is truncated
  machine division, hence Int.tmod.
* The Go stripe test cfg.StripeSize&(cfg.StripeSize-1) is a bitwise AND of
  two int64 values.  It is only evaluated when cfg.StripeSize > 1 (the
  first disjunct short-circuits otherwise), so both operands are
  non-negative there and the AND agrees with Nat.land on the toNat
  images; for StripeSize <= 1 the disjunction is already decided by the
  first disjunct exactly as in Go. -/
def TSDBConfig.validate (cfg : TSDBConfig) : Option Err :=
  if cfg.ShipInterval > 0 ∧ cfg.ShipConcurrency ≤ 0 then
    some .invalidShipConcurrency
  else if cfg.MaxTSDBOpeningConcurrencyOnStartup ≤ 0 then
    some .invalidOpeningConcurrency
  else if cfg.HeadCompactionInterval ≤ 0 ∨ cfg.HeadCompactionInterval > 15 * minute then
    some .invalidCompactionInterval
  else if cfg.HeadCompactionConcurrency ≤ 0 then
    some .invalidCompactionConcurrency
  else if cfg.HeadChunksWriteBufferSize < MinWriteBufferSize ∨
      cfg.HeadChunksWriteBufferSize > MaxWriteBufferSize ∨
      Int.tmod cfg.HeadChunksWriteBufferSize 1024 ≠ 0 then
    some .invalidHeadChunksWriteBufferSize
  else if cfg.StripeSize ≤ 1 ∨ (cfg.StripeSize.toNat &&& (cfg.StripeSize.toNat - 1)) ≠ 0 then
    some .invalidStripeSize
  else if cfg.BlockRanges = [] then
    some .emptyBlockranges
  else if cfg.WALSegmentSizeBytes ≤ 0 then
    some .invalidWALSegmentSizeBytes
  else
    none

/-- State-passing translation of TSDBConfig.Validate.  The Go method has a
pointer receiver, so this version threads the receiver through and returns
it next to the result; the source body contains no assignment to cfg, so
every branch returns the receiver it was given. -/
def TSDBConfig.validateSt (cfg : TSDBConfig) : Option Err × TSDBConfig :=
  if cfg.ShipInterval > 0 ∧ cfg.ShipConcurrency ≤ 0 then
    (some .invalidShipConcurrency, cfg)
  else if cfg.MaxTSDBOpeningConcurrencyOnStartup ≤ 0 then
    (some .invalidOpeningConcurrency, cfg)
  else if cfg.HeadCompactionInterval ≤ 0 ∨ cfg.HeadCompactionInterval > 15 * minute then
    (some .invalidCompactionInterval, cfg)
  else if cfg.HeadCompactionConcurrency ≤ 0 then
    (some .invalidCompactionConcurrency, cfg)
  else if cfg.HeadChunksWriteBufferSize < MinWriteBufferSize ∨
      cfg.HeadChunksWriteBufferSize > MaxWriteBufferSize ∨
      Int.tmod cfg.HeadChunksWriteBufferSize 1024 ≠ 0 then
    (some .invalidHeadChunksWriteBufferSize, cfg)
  else if cfg.StripeSize ≤ 1 ∨ (cfg.StripeSize.toNat &&& (cfg.StripeSize.toNat - 1)) ≠ 0 then
    (some .invalidStripeSize, cfg)
  else if cfg.BlockRanges = [] then
    (some .emptyBlockranges, cfg)
  else if cfg.WALSegmentSizeBytes ≤ 0 then
    (some .invalidWALSegmentSizeBytes, cfg)
  else
    (none, cfg)

/-- IsBlocksShippingEnabled from config.go. -/
def TSDBConfig.isBlocksShippingEnabled (cfg : TSDBConfig) : Prop :=
  cfg.ShipInterval > 0

/-- Modelled from the spec: the index cache configuration lives outside the
given sources; the spec treats sub-validators as opaque sources of a first
failure, so the config is abstracted by the outcome of its Validate. -/
structure IndexCacheConfig where
  validateResult : Option Err

/-- Validate of the abstract index cache configuration. -/
def IndexCacheConfig.validate (cfg : IndexCacheConfig) : Option Err :=
  cfg.validateResult

/-- Modelled from the spec: the chunks cache configuration lives outside
the given sources and is abstracted by the outcome of its Validate. -/
structure ChunksCacheConfig where
  validateResult : Option Err

/-- Validate of the abstract chunks cache configuration. -/
def ChunksCacheConfig.validate (cfg : ChunksCacheConfig) : Option Err :=
  cfg.validateResult

/-- Modelled from the spec: the metadata cache configuration lives outside
the given sources and is abstracted by the outcome of its Validate. -/
structure MetadataCacheConfig where
  validateResult : Option Err

/-- Validate of the abstract metadata cache configuration. -/
def MetadataCacheConfig.validate (cfg : MetadataCacheConfig) : Option Err :=
  cfg.validateResult

/-- Modelled from the spec: bucket.Config (the object-storage client
configuration inlined into BlocksStorageConfig) lives outside the given
sources and is abstracted by the outcome of its Validate. -/
structure BucketConfig where
  validateResult : Option Err

/-- Validate of the abstract bucket configuration. -/
def BucketConfig.validate (cfg : BucketConfig) : Option Err :=
  cfg.validateResult

/-- BucketStoreConfig holds the config for Bucket Stores used by the
querier and store-gateway.  Scalar fields follow the Go struct; the three
cache configs are the abstract stand-ins above. -/
structure BucketStoreConfig where
  SyncDir : String
  SyncInterval : Int
  MaxConcurrent : Int
  TenantSyncConcurrency : Int
  BlockSyncConcurrency : Int
  MetaSyncConcurrency : Int
  DeprecatedConsistencyDelay : Int
  IndexCache : IndexCacheConfig
  ChunksCache : ChunksCacheConfig
  MetadataCache : MetadataCacheConfig
  IgnoreDeletionMarksDelay : Int
  IgnoreBlocksWithin : Int
  MaxChunkPoolBytes : Nat
  ChunkPoolMinBucketSizeBytes : Int
  ChunkPoolMaxBucketSizeBytes : Int
  SeriesHashCacheMaxBytes : Nat
  IndexHeaderLazyLoadingEnabled : Bool
  IndexHeaderLazyLoadingIdleTimeout : Int
  PartitionerMaxGapBytes : Nat
  PostingOffsetsInMemSampling : Int
  StreamingBatchSize : Int

/-- BucketStoreConfig.Validate from config.go, in source order: the
streaming batch size check comes first, then the three wrapped cache
sub-validators.  The final DeprecatedConsistencyDelay > 0 branch of the Go
code only logs a deprecation warning and still returns nil, so it does not
appear in the result. -/
def BucketStoreConfig.validate (cfg : BucketStoreConfig) : Option Err :=
  if cfg.StreamingBatchSize ≤ 0 then
    some .invalidStreamingBatchSize
  else
    match IndexCacheConfig.validate cfg.IndexCache with
    | some e => some (.wrap .indexCacheConfiguration e)
    | none =>
      match ChunksCacheConfig.validate cfg.ChunksCache with
      | some e => some (.wrap .chunksCacheConfiguration e)
      | none =>
        match MetadataCacheConfig.validate cfg.MetadataCache with
        | some e => some (.wrap .metadataCacheConfiguration e)
        | none => none

/-- BlocksStorageConfig holds the config information for the blocks
storage. -/
structure BlocksStorageConfig where
  Bucket : BucketConfig
  BucketStore : BucketStoreConfig
  TSDB : TSDBConfig

/-- BlocksStorageConfig.Validate from config.go: bucket first, then TSDB,
then the bucket store. -/
def BlocksStorageConfig.validate (cfg : BlocksStorageConfig) : Option Err :=
  match BucketConfig.validate cfg.Bucket with
  | some e => some e
  | none =>
    match TSDBConfig.validate cfg.TSDB with
    | some e => some e
    | none => BucketStoreConfig.validate cfg.BucketStore

/-- Written after the words of the spec, for comparison with the source
translation: compose validation by calling each sub-validator and
aggregating the first failure. -/
def firstFailure : List (Option Err) → Option Err
  | [] => none
  | some e :: _ => some e
  | none :: rest => firstFailure rest

/-- The TSDBConfig whose fields are the defaults registered by
TSDBConfig.RegisterFlags in config.go (BlockRanges defaults to one 2h
range, retention 13h, ship interval 1m, head compaction interval 1m,
write buffer 4 MiB, stripe size 16384, WAL segment 128 MiB, out-of-order
capacity 32, postings cache TTL 10s and size 100). -/
def defaultTSDBConfig : TSDBConfig where
  Dir := "./tsdb/"
  BlockRanges := [7200000000000]
  Retention := 46800000000000
  ShipInterval := 60000000000
  ShipConcurrency := 10
  HeadCompactionInterval := 60000000000
  HeadCompactionConcurrency := 1
  HeadCompactionIdleTimeout := 3600000000000
  HeadChunksWriteBufferSize := 4194304
  HeadChunksEndTimeVariance := 0
  StripeSize := 16384
  WALCompressionEnabled := false
  WALSegmentSizeBytes := 134217728
  FlushBlocksOnShutdown := false
  CloseIdleTSDBTimeout := 46800000000000
  MemorySnapshotOnShutdown := false
  HeadChunksWriteQueueSize := 1000000
  SeriesHashCacheMaxBytes := 1073741824
  MaxTSDBOpeningConcurrencyOnStartup := 10
  KeepUserTSDBOpenOnShutdown := false
  CloseIdleTSDBInterval := 300000000000
  OutOfOrderCapacityMax := 32
  HeadPostingsForMatchersCacheTTL := 10000000000
  HeadPostingsForMatchersCacheSize := 100
  HeadPostingsForMatchersCacheForce := false

/-- A BucketStoreConfig whose scalar fields are the defaults registered by
BucketStoreConfig.RegisterFlags in config.go, with all three abstract
cache sub-validators succeeding. -/
def defaultBucketStoreConfig : BucketStoreConfig where
  SyncDir := "./tsdb-sync/"
  SyncInterval := 900000000000
  MaxConcurrent := 100
  TenantSyncConcurrency := 10
  BlockSyncConcurrency := 20
  MetaSyncConcurrency := 20
  DeprecatedConsistencyDelay := 0
  IndexCache := ⟨none⟩
  ChunksCache := ⟨none⟩
  MetadataCache := ⟨none⟩
  IgnoreDeletionMarksDelay := 3600000000000
  IgnoreBlocksWithin := 36000000000000
  MaxChunkPoolBytes := 2147483648
  ChunkPoolMinBucketSizeBytes := 16000
  ChunkPoolMaxBucketSizeBytes := 50000000
  SeriesHashCacheMaxBytes := 1073741824
  IndexHeaderLazyLoadingEnabled := true
  IndexHeaderLazyLoadingIdleTimeout := 3600000000000
  PartitionerMaxGapBytes := 524288
  PostingOffsetsInMemSampling := 32
  StreamingBatchSize := 5000

/-!
### Go duration strings

DurationList.String joins Go time.Duration.String values with commas and
DurationList.Set splits on commas and applies Go time.ParseDuration, so
both Go library functions are embedded below.  Go strings are modelled as
List Char. -/

/-- Decimal digit test (Go: the character is between 0 and 9). -/
def isDigit (c : Char) : Bool := decide ('0' ≤ c ∧ c ≤ '9')

/-- Numeric value of a digit character (Go: c - the character 0). -/
def digitVal (c : Char) : Nat := c.toNat - 48

/-- Digit character of a value below ten (Go: the character 0 plus d). -/
def digitChar (d : Nat) : Char := Char.ofNat (48 + d)

/-- Big-endian decimal representation of a natural number; Go fmtInt,
which prints 0 as the single digit 0. -/
def toDec (n : Nat) : List Char :=
  if n = 0 then ['0'] else ((Nat.digits 10 n).map digitChar).reverse

/-- Value of a big-endian digit string on top of an accumulator; this is
the arithmetic both Go leadingInt and Go leadingFraction perform while
scanning digits left to right. -/
def valDec (a : Nat) (l : List Char) : Nat :=
  l.foldl (fun x c => x * 10 + digitVal c) a

/-- Trailing-zero trimming: Go fmtFrac emits the fraction digits from the
least significant end and skips zeros until the first significant digit,
which amounts to removing the trailing zeros of the padded block. -/
def trimZeros (l : List Char) : List Char :=
  (l.reverse.dropWhile (fun c => c == '0')).reverse

/-- The decimal digits of f padded with leading zeros to width prec (the
digit block Go fmtFrac scans); meaningful for f < 10 ^ prec. -/
def padDec (f prec : Nat) : List Char :=
  List.replicate (prec - (toDec f).length) '0' ++ toDec f

/-- The fraction part Go fmtFrac contributes to the printed duration:
nothing when the fraction is zero, otherwise a dot followed by the padded
digits with trailing zeros removed. -/
def fracStr (f prec : Nat) : List Char :=
  if f = 0 then [] else '.' :: trimZeros (padDec f prec)

/-- Unsigned core of Go time.Duration.String on u = |d| nanoseconds:
sub-second durations use the units ns, µs, ms with a fraction of the
printed unit, larger ones use h, m, s with at most nine fractional second
digits; the right-to-left buffer writes of the Go code are rendered as
list concatenation in printing order. -/
def durCore (u : Nat) : List Char :=
  if u < 1000000000 then
    if u = 0 then ['0', 's']
    else if u < 1000 then toDec u ++ ['n', 's']
    else if u < 1000000 then
      toDec (u / 1000) ++ fracStr (u % 1000) 3 ++ ['µ', 's']
    else
      toDec (u / 1000000) ++ fracStr (u % 1000000) 6 ++ ['m', 's']
  else
    -- the Go locals are inlined: seconds are u / 1e9, minutes their
    -- sixtieth, hours the sixtieth of the minutes; the minute and hour
    -- groups are omitted when the value in them and above is zero
    if u / 1000000000 / 60 = 0 then
      toDec (u / 1000000000 % 60) ++ fracStr (u % 1000000000) 9 ++ ['s']
    else if u / 1000000000 / 60 / 60 = 0 then
      toDec (u / 1000000000 / 60 % 60) ++ ['m'] ++
        (toDec (u / 1000000000 % 60) ++ fracStr (u % 1000000000) 9 ++ ['s'])
    else
      toDec (u / 1000000000 / 60 / 60) ++ ['h'] ++
        (toDec (u / 1000000000 / 60 % 60) ++ ['m'] ++
          (toDec (u / 1000000000 % 60) ++ fracStr (u % 1000000000) 9 ++ ['s']))

/-- Go time.Duration.String: optional sign followed by the unsigned core
(Go negates the value as a uint64, which is the absolute value also for
the minimal int64, hence natAbs). -/
def durationString (d : Int) : List Char :=
  if d < 0 then '-' :: durCore d.natAbs else durCore d.natAbs

/-- Go time leadingInt: consume the leading digits of the string into the
uint64 accumulator x, failing once the value would pass 1<<63. -/
def leadingInt (x : Nat) : List Char → Except Unit (Nat × List Char)
  | [] => .ok (x, [])
  | c :: t =>
    if isDigit c then
      if x > 2 ^ 63 / 10 then .error ()
      else
        let y := x * 10 + digitVal c
        if y > 2 ^ 63 then .error ()
        else leadingInt y t
    else .ok (x, c :: t)

/-- Go time leadingFraction: consume the digits after the decimal point
into x, multiplying scale by ten per consumed digit, silently freezing x
and scale once another digit would overflow (no error).  The Go scale is
a float64 that only ever holds exact powers of ten below 10^22, so it is
modelled as Nat. -/
def leadingFraction (x scale : Nat) (overflow : Bool) :
    List Char → Nat × Nat × List Char
  | [] => (x, scale, [])
  | c :: t =>
    if isDigit c then
      if overflow then leadingFraction x scale true t
      else if x > (2 ^ 63 - 1) / 10 then leadingFraction x scale true t
      else
        let y := x * 10 + digitVal c
        if y > 2 ^ 63 then leadingFraction x scale true t
        else leadingFraction y (scale * 10) false t
    else (x, scale, c :: t)

/-- Go time unitMap restricted to the duration units, mapping a unit token
to its nanosecond value (us has the two micro-sign spellings next to the
ASCII one). -/
def unitMap (u : List Char) : Option Nat :=
  if u = ['n', 's'] then some 1
  else if u = ['u', 's'] then some 1000
  else if u = ['µ', 's'] then some 1000
  else if u = ['μ', 's'] then some 1000
  else if u = ['m', 's'] then some 1000000
  else if u = ['s'] then some 1000000000
  else if u = ['m'] then some 60000000000
  else if u = ['h'] then some 3600000000000
  else none

/-- Character class that terminates a unit token in ParseDuration: the
next component starts with a digit or a dot. -/
def isUnitEnd (c : Char) : Bool := c == '.' || isDigit c

/-- Fraction step of a ParseDuration loop iteration: when the remainder
starts with a dot, consume fraction digits after it; the Bool records
whether any fraction digit was consumed (the Go post flag). -/
def consumeFraction (s1 : List Char) : Nat × Nat × List Char × Bool :=
  if s1.head? = some '.' then
    match leadingFraction 0 1 false s1.tail with
    | (f, scale, s2) => (f, scale, s2, decide (s2.length ≠ s1.tail.length))
  else (0, 1, s1, false)

/-- One iteration of the Go ParseDuration loop: a leading integer, an
optional fraction and a mandatory unit token; returns the nanosecond
value of the component and the remaining string.  The Go fraction
contribution uint64(float64(f) * (float64(unit) / scale)) is modelled as
f * unit / scale: the float64 arithmetic is exact whenever scale divides
unit and the product stays below 2^53, which covers every string
Duration.String can produce (at most nine fraction digits against a unit
of at most 10^9); on longer hand-written fractions the float may round
where this model truncates, a regime no theorem below depends on. -/
def component (s : List Char) : Except Unit (Nat × List Char) :=
  match s.head? with
  | none => .error ()
  | some c0 =>
    if ¬(c0 = '.' ∨ isDigit c0 = true) then .error ()
    else
      match leadingInt 0 s with
      | .error _ => .error ()
      | .ok (v, s1) =>
        let pre : Bool := decide (s1.length ≠ s.length)
        match consumeFraction s1 with
        | (f, scale, s2, post) =>
          if pre = false ∧ post = false then .error ()
          else
            let us := s2.takeWhile (fun c => !(isUnitEnd c))
            let rest := s2.dropWhile (fun c => !(isUnitEnd c))
            if us = [] then .error ()
            else
              match unitMap us with
              | none => .error ()
              | some unit =>
                if v > 2 ^ 63 / unit then .error ()
                else
                  let v1 := v * unit
                  if f > 0 then
                    let v2 := v1 + f * unit / scale
                    if v2 > 2 ^ 63 then .error () else .ok (v2, rest)
                  else .ok (v1, rest)

/-- The accumulation loop of Go ParseDuration over the unsigned part of
the string: parse one component at a time and add it to d, failing when
the running uint64 sum passes 1<<63.  Every successful component consumes
at least one character, so with the fuel ParseDuration supplies (length
plus one) the fuel-exhaustion branch is unreachable; the fuel only makes
the recursion structural. -/
def parseLoop : Nat → Nat → List Char → Except Unit Nat
  | _, d, [] => .ok d
  | 0, _, _ :: _ => .error ()
  | fuel + 1, d, c :: t =>
    match component (c :: t) with
    | .error _ => .error ()
    | .ok (v, rest) =>
      if d + v > 2 ^ 63 then .error ()
      else parseLoop fuel (d + v) rest

/-- Sign handling at the head of Go ParseDuration: consume one optional
minus or plus. -/
def stripSign (s : List Char) : Bool × List Char :=
  match s.head? with
  | some c => if c = '-' ∨ c = '+' then (decide (c = '-'), s.tail) else (false, s)
  | none => (false, s)

/-- Go time.ParseDuration, returning the signed nanosecond count.  After
the optional sign, a bare 0 is zero, an empty remainder is invalid, and
otherwise the component loop runs; the final unsigned sum is negated or
range-checked exactly as the Go uint64 to int64 conversion does. -/
def parseDuration (s : List Char) : Except Unit Int :=
  match stripSign s with
  | (neg, s1) =>
    if s1 = ['0'] then .ok 0
    else if s1 = [] then .error ()
    else
      match parseLoop (s1.length + 1) 0 s1 with
      | .error _ => .error ()
      | .ok d =>
        if neg then .ok (-(d : Int))
        else if d > 2 ^ 63 - 1 then .error ()
        else .ok (d : Int)

/-- Go strings.Split for the single-comma separator used by
DurationList.Set; splitting the empty string yields one empty piece. -/
def splitComma : List Char → List (List Char)
  | [] => [[]]
  | c :: t =>
    match splitComma t with
    | [] => []
    | h :: r => if c = ',' then [] :: h :: r else (c :: h) :: r

/-- Go strings.Join with a comma separator, as used by
DurationList.String. -/
def joinComma : List (List Char) → List Char
  | [] => []
  | [x] => x
  | x :: y :: r => x ++ ',' :: joinComma (y :: r)

/-- Parse every comma-separated piece with ParseDuration, stopping at the
first failure; this is the loop body of DurationList.Set. -/
def parseList : List (List Char) → Except Unit (List Int)
  | [] => .ok []
  | v :: rest =>
    match parseDuration v with
    | .error _ => .error ()
    | .ok t =>
      match parseList rest with
      | .error _ => .error ()
      | .ok ts => .ok (t :: ts)

/-- DurationList.String from config.go: format every duration with
time.Duration.String and join the pieces with commas. -/
def DurationList.string (d : DurationList) : List Char :=
  joinComma (d.map durationString)

/-- DurationList.Set from config.go: split the flag value on commas,
parse every piece with time.ParseDuration, fail on the first parse error
and otherwise overwrite the receiver with the parsed list (the returned
value here). -/
def DurationList.set (s : List Char) : Except Unit DurationList :=
  parseList (splitComma s)

/-! ### Theorems -/

/-- Bit i+1 view of doubling: auxiliary equality used for the stripe-size
power-of-two characterisation. -/
theorem land_two_mul_two_mul_add_one (a b : Nat) :
    ((2 * a) &&& (2 * b + 1)) = 2 * (a &&& b) := by
  apply Nat.eq_of_testBit_eq
  intro i
  cases i with
  | zero =>
    simp only [Nat.testBit_zero, Nat.testBit_and]
    have h1 : 2 * a % 2 = 0 := by omega
    have h2 : (2 * b + 1) % 2 = 1 := by omega
    have h3 : 2 * (a &&& b) % 2 = 0 := by omega
    simp [h1, h2, h3]
  | succ j =>
    have h1 : 2 * a / 2 = a := by omega
    have h2 : (2 * b + 1) / 2 = b := by omega
    have h3 : 2 * (a &&& b) / 2 = a &&& b := by omega
    rw [Nat.testBit_and]
    simp only [Nat.testBit_succ, h1, h2, h3, Nat.testBit_and]

/-- A positive natural number is a power of two exactly when the bitwise
AND with its predecessor vanishes; this is the test TSDBConfig.Validate
uses on the stripe size. -/
theorem land_pred_eq_zero_iff :
    ∀ n : Nat, 0 < n → (((n &&& (n - 1)) = 0) ↔ ∃ k : Nat, n = 2 ^ k) := by
  intro n
  induction n using Nat.strong_induction_on with
  | _ n ih =>
    intro hn
    rcases Nat.even_or_odd n with ⟨m, hm⟩ | ⟨m, hm⟩
    · -- n = 2 * m with m ≥ 1
      have hm2 : n = 2 * m := by omega
      have hmpos : 0 < m := by omega
      rw [hm2, (show 2 * m - 1 = 2 * (m - 1) + 1 by omega), land_two_mul_two_mul_add_one]
      have ihm := ih m (by omega) hmpos
      constructor
      · intro h0
        have : (m &&& (m - 1)) = 0 := by omega
        obtain ⟨k, hk⟩ := ihm.mp this
        exact ⟨k + 1, by rw [hk]; ring⟩
      · rintro ⟨k, hk⟩
        rcases k with _ | j
        · omega
        · have hpow : 2 * m = 2 * 2 ^ j := by
            rw [hk]; ring
          have : m = 2 ^ j := by omega
          have h0 := ihm.mpr ⟨j, this⟩
          omega
    · -- n = 2 * m + 1
      rcases Nat.eq_zero_or_pos m with hm0 | hmpos
      · subst hm0
        have h1 : n = 1 := by omega
        subst h1
        constructor
        · intro _; exact ⟨0, rfl⟩
        · intro _; decide
      · have hodd : n = 2 * m + 1 := hm
        rw [hodd, (show 2 * m + 1 - 1 = 2 * m by omega), Nat.and_comm,
          land_two_mul_two_mul_add_one, Nat.and_self]
        constructor
        · intro h0; omega
        · rintro ⟨k, hk⟩
          rcases k with _ | j
          · omega
          · have hpow : (2 : Nat) ^ (j + 1) = 2 * 2 ^ j := by ring
            have hj : 0 < 2 ^ j := Nat.pos_pow_of_pos j (by omega)
            omega

/-- The condition TSDBConfig.Validate tests on StripeSize holds exactly
when the stripe size is not a power of two greater than one. -/
theorem stripe_cond_iff (s : Int) :
    (s ≤ 1 ∨ (s.toNat &&& (s.toNat - 1)) ≠ 0) ↔ ¬ ∃ k : Nat, 1 ≤ k ∧ s = 2 ^ k := by
  constructor
  · rintro (h | h) ⟨k, hk1, hk2⟩
    · have h2 : (2 : Int) ^ 1 ≤ 2 ^ k := pow_le_pow_right₀ (by norm_num) hk1
      rw [← hk2] at h2
      simp at h2
      omega
    · apply h
      have hcast : s.toNat = 2 ^ k := by
        have : s = ((2 ^ k : Nat) : Int) := by rw [hk2]; push_cast; ring
        rw [this, Int.toNat_natCast]
      rw [hcast]
      exact (land_pred_eq_zero_iff (2 ^ k) (Nat.pos_pow_of_pos k (by omega))).mpr ⟨k, rfl⟩
  · intro h
    by_contra hc
    push_neg at hc
    obtain ⟨hs1, hland⟩ := hc
    have hpos : 0 < s.toNat := by omega
    obtain ⟨k, hk⟩ := (land_pred_eq_zero_iff s.toNat hpos).mp hland
    apply h
    refine ⟨k, ?_, ?_⟩
    · rcases k with _ | j
      · simp at hk; omega
      · omega
    · have : s = (s.toNat : Int) := by omega
      rw [this, hk]
      push_cast
      ring

/-- Claim C1: TSDBConfig.Validate accepts a stripe size only if it is a
power of two greater than 1: for every configuration whose earlier checked
fields are valid, Validate returns errInvalidStripeSize exactly when the
stripe size is not of the form 2 ^ k with k ≥ 1 (so it rejects 0, 1, 3 and
every non-power-of-two, and produces no stripe-size error for 2 or
16384). -/
theorem tsdbValidate_stripe_size_power_of_two (cfg : TSDBConfig)
    (hship : ¬(cfg.ShipInterval > 0 ∧ cfg.ShipConcurrency ≤ 0))
    (hopen : ¬(cfg.MaxTSDBOpeningConcurrencyOnStartup ≤ 0))
    (hint : ¬(cfg.HeadCompactionInterval ≤ 0 ∨ cfg.HeadCompactionInterval > 15 * minute))
    (hcc : ¬(cfg.HeadCompactionConcurrency ≤ 0))
    (hbuf : ¬(cfg.HeadChunksWriteBufferSize < MinWriteBufferSize ∨
        cfg.HeadChunksWriteBufferSize > MaxWriteBufferSize ∨
        Int.tmod cfg.HeadChunksWriteBufferSize 1024 ≠ 0)) :
    TSDBConfig.validate cfg = some Err.invalidStripeSize ↔
      ¬ ∃ k : Nat, 1 ≤ k ∧ cfg.StripeSize = 2 ^ k := by
  rw [← stripe_cond_iff]
  unfold TSDBConfig.validate
  rw [if_neg hship, if_neg hopen, if_neg hint, if_neg hcc, if_neg hbuf]
  by_cases hs : cfg.StripeSize ≤ 1 ∨ (cfg.StripeSize.toNat &&& (cfg.StripeSize.toNat - 1)) ≠ 0
  · rw [if_pos hs]
    simp [hs]
  · rw [if_neg hs]
    simp only [hs, iff_false]
    split
    · simp
    · split <;> simp

/-- Witness for C1 at the registered default configuration (stripe size
16384 = 2 ^ 14). -/
theorem tsdbValidate_stripe_size_power_of_two_witness :
    (¬(defaultTSDBConfig.ShipInterval > 0 ∧ defaultTSDBConfig.ShipConcurrency ≤ 0) ∧
     ¬(defaultTSDBConfig.MaxTSDBOpeningConcurrencyOnStartup ≤ 0) ∧
     ¬(defaultTSDBConfig.HeadCompactionInterval ≤ 0 ∨
        defaultTSDBConfig.HeadCompactionInterval > 15 * minute) ∧
     ¬(defaultTSDBConfig.HeadCompactionConcurrency ≤ 0) ∧
     ¬(defaultTSDBConfig.HeadChunksWriteBufferSize < MinWriteBufferSize ∨
        defaultTSDBConfig.HeadChunksWriteBufferSize > MaxWriteBufferSize ∨
        Int.tmod defaultTSDBConfig.HeadChunksWriteBufferSize 1024 ≠ 0)) ∧
    (TSDBConfig.validate defaultTSDBConfig = some Err.invalidStripeSize ↔
      ¬ ∃ k : Nat, 1 ≤ k ∧ defaultTSDBConfig.StripeSize = 2 ^ k) :=
  ⟨⟨by decide, by decide, by decide, by decide, by decide⟩,
    tsdbValidate_stripe_size_power_of_two defaultTSDBConfig
      (by decide) (by decide) (by decide) (by decide) (by decide)⟩

/-- Counterexample to claim C2 as stated: a configuration whose
OutOfOrderCapacityMax is 0 (outside the documented 1 to 255 range) and
whose other fields are the registered defaults passes TSDBConfig.Validate
with no error. -/
theorem tsdbValidate_out_of_order_counterexample :
    ({ defaultTSDBConfig with OutOfOrderCapacityMax := 0 } : TSDBConfig).OutOfOrderCapacityMax = 0 ∧
    TSDBConfig.validate { defaultTSDBConfig with OutOfOrderCapacityMax := 0 } = none := by
  constructor
  · rfl
  · decide

/-- Claim C2 amended: TSDBConfig.Validate performs no check on
OutOfOrderCapacityMax at all; its result is invariant under any change of
that field, so values outside 1 to 255 are not rejected at validate
time. -/
theorem tsdbValidate_independent_of_out_of_order_capacity (cfg : TSDBConfig) (x : Int) :
    TSDBConfig.validate { cfg with OutOfOrderCapacityMax := x } = TSDBConfig.validate cfg := rfl

/-- Claim C3: assuming the ship-concurrency and opening-concurrency checks
pass, TSDBConfig.Validate returns errInvalidCompactionInterval exactly
when the head compaction interval lies outside the half-open interval
(0, 15 minutes]. -/
theorem tsdbValidate_head_compaction_interval (cfg : TSDBConfig)
    (hship : ¬(cfg.ShipInterval > 0 ∧ cfg.ShipConcurrency ≤ 0))
    (hopen : ¬(cfg.MaxTSDBOpeningConcurrencyOnStartup ≤ 0)) :
    TSDBConfig.validate cfg = some Err.invalidCompactionInterval ↔
      (cfg.HeadCompactionInterval ≤ 0 ∨ cfg.HeadCompactionInterval > 15 * minute) := by
  unfold TSDBConfig.validate
  rw [if_neg hship, if_neg hopen]
  by_cases h : cfg.HeadCompactionInterval ≤ 0 ∨ cfg.HeadCompactionInterval > 15 * minute
  · rw [if_pos h]
    simp [h]
  · rw [if_neg h]
    simp only [h, iff_false]
    split
    · simp
    · split
      · simp
      · split
        · simp
        · split
          · simp
          · split <;> simp

/-- Witness for C3 at the registered default configuration (interval one
minute, inside the bound). -/
theorem tsdbValidate_head_compaction_interval_witness :
    (¬(defaultTSDBConfig.ShipInterval > 0 ∧ defaultTSDBConfig.ShipConcurrency ≤ 0) ∧
     ¬(defaultTSDBConfig.MaxTSDBOpeningConcurrencyOnStartup ≤ 0)) ∧
    (TSDBConfig.validate defaultTSDBConfig = some Err.invalidCompactionInterval ↔
      (defaultTSDBConfig.HeadCompactionInterval ≤ 0 ∨
        defaultTSDBConfig.HeadCompactionInterval > 15 * minute)) :=
  ⟨⟨by decide, by decide⟩,
    tsdbValidate_head_compaction_interval defaultTSDBConfig (by decide) (by decide)⟩

/-- Counterexample to claim C4 as stated: with shipping disabled
(ShipInterval = 0) a non-positive ship concurrency is accepted, so it is
not true that every TSDBConfig with ShipConcurrency ≤ 0 fails
validation. -/
theorem tsdbValidate_ship_concurrency_counterexample :
    ({ defaultTSDBConfig with ShipInterval := 0, ShipConcurrency := 0 } : TSDBConfig).ShipConcurrency ≤ 0 ∧
    TSDBConfig.validate { defaultTSDBConfig with ShipInterval := 0, ShipConcurrency := 0 } = none := by
  constructor
  · decide
  · decide

/-- Claim C4 amended: when shipping is enabled (ShipInterval > 0, the
condition of IsBlocksShippingEnabled), a non-positive ship concurrency is
fatal at validate time: Validate returns errInvalidShipConcurrency. -/
theorem tsdbValidate_ship_concurrency (cfg : TSDBConfig)
    (henabled : cfg.ShipInterval > 0)
    (hconc : cfg.ShipConcurrency ≤ 0) :
    TSDBConfig.validate cfg = some Err.invalidShipConcurrency := by
  unfold TSDBConfig.validate
  rw [if_pos ⟨henabled, hconc⟩]

/-- Witness for the amended C4: the default configuration with ship
concurrency zero is rejected with errInvalidShipConcurrency. -/
theorem tsdbValidate_ship_concurrency_witness :
    (({ defaultTSDBConfig with ShipConcurrency := 0 } : TSDBConfig).ShipInterval > 0 ∧
     ({ defaultTSDBConfig with ShipConcurrency := 0 } : TSDBConfig).ShipConcurrency ≤ 0) ∧
    TSDBConfig.validate { defaultTSDBConfig with ShipConcurrency := 0 } =
      some Err.invalidShipConcurrency :=
  ⟨⟨by decide, by decide⟩,
    tsdbValidate_ship_concurrency { defaultTSDBConfig with ShipConcurrency := 0 }
      (by decide) (by decide)⟩

/-- Claim C5: assuming the earlier checks pass, TSDBConfig.Validate
returns the write-buffer error exactly when HeadChunksWriteBufferSize is
below the minimum write buffer size, above the maximum write buffer size,
or not divisible by 1024. -/
theorem tsdbValidate_head_chunks_write_buffer (cfg : TSDBConfig)
    (hship : ¬(cfg.ShipInterval > 0 ∧ cfg.ShipConcurrency ≤ 0))
    (hopen : ¬(cfg.MaxTSDBOpeningConcurrencyOnStartup ≤ 0))
    (hint : ¬(cfg.HeadCompactionInterval ≤ 0 ∨ cfg.HeadCompactionInterval > 15 * minute))
    (hcc : ¬(cfg.HeadCompactionConcurrency ≤ 0)) :
    TSDBConfig.validate cfg = some Err.invalidHeadChunksWriteBufferSize ↔
      (cfg.HeadChunksWriteBufferSize < MinWriteBufferSize ∨
       cfg.HeadChunksWriteBufferSize > MaxWriteBufferSize ∨
       Int.tmod cfg.HeadChunksWriteBufferSize 1024 ≠ 0) := by
  unfold TSDBConfig.validate
  rw [if_neg hship, if_neg hopen, if_neg hint, if_neg hcc]
  by_cases h : cfg.HeadChunksWriteBufferSize < MinWriteBufferSize ∨
      cfg.HeadChunksWriteBufferSize > MaxWriteBufferSize ∨
      Int.tmod cfg.HeadChunksWriteBufferSize 1024 ≠ 0
  · rw [if_pos h]
    simp [h]
  · rw [if_neg h]
    simp only [h, iff_false]
    split
    · simp
    · split
      · simp
      · split <;> simp

/-- Witness for C5 at the registered default configuration (buffer
4 MiB, a multiple of 1024 inside the bounds). -/
theorem tsdbValidate_head_chunks_write_buffer_witness :
    (¬(defaultTSDBConfig.ShipInterval > 0 ∧ defaultTSDBConfig.ShipConcurrency ≤ 0) ∧
     ¬(defaultTSDBConfig.MaxTSDBOpeningConcurrencyOnStartup ≤ 0) ∧
     ¬(defaultTSDBConfig.HeadCompactionInterval ≤ 0 ∨
        defaultTSDBConfig.HeadCompactionInterval > 15 * minute) ∧
     ¬(defaultTSDBConfig.HeadCompactionConcurrency ≤ 0)) ∧
    (TSDBConfig.validate defaultTSDBConfig = some Err.invalidHeadChunksWriteBufferSize ↔
      (defaultTSDBConfig.HeadChunksWriteBufferSize < MinWriteBufferSize ∨
       defaultTSDBConfig.HeadChunksWriteBufferSize > MaxWriteBufferSize ∨
       Int.tmod defaultTSDBConfig.HeadChunksWriteBufferSize 1024 ≠ 0)) :=
  ⟨⟨by decide, by decide, by decide, by decide⟩,
    tsdbValidate_head_chunks_write_buffer defaultTSDBConfig
      (by decide) (by decide) (by decide) (by decide)⟩

/-- Claim C6: with every earlier check passing, an empty BlockRanges list
makes TSDBConfig.Validate return errEmptyBlockranges (the error whose Go
message reads: empty block ranges for TSDB). -/
theorem tsdbValidate_empty_block_ranges (cfg : TSDBConfig)
    (hship : ¬(cfg.ShipInterval > 0 ∧ cfg.ShipConcurrency ≤ 0))
    (hopen : ¬(cfg.MaxTSDBOpeningConcurrencyOnStartup ≤ 0))
    (hint : ¬(cfg.HeadCompactionInterval ≤ 0 ∨ cfg.HeadCompactionInterval > 15 * minute))
    (hcc : ¬(cfg.HeadCompactionConcurrency ≤ 0))
    (hbuf : ¬(cfg.HeadChunksWriteBufferSize < MinWriteBufferSize ∨
        cfg.HeadChunksWriteBufferSize > MaxWriteBufferSize ∨
        Int.tmod cfg.HeadChunksWriteBufferSize 1024 ≠ 0))
    (hstripe : ¬(cfg.StripeSize ≤ 1 ∨ (cfg.StripeSize.toNat &&& (cfg.StripeSize.toNat - 1)) ≠ 0))
    (hempty : cfg.BlockRanges = []) :
    TSDBConfig.validate cfg = some Err.emptyBlockranges := by
  unfold TSDBConfig.validate
  rw [if_neg hship, if_neg hopen, if_neg hint, if_neg hcc, if_neg hbuf, if_neg hstripe,
    if_pos hempty]

/-- Witness for C6: the default configuration with an emptied block-range
list is rejected with errEmptyBlockranges. -/
theorem tsdbValidate_empty_block_ranges_witness :
    (¬(({ defaultTSDBConfig with BlockRanges := [] } : TSDBConfig).ShipInterval > 0 ∧
        ({ defaultTSDBConfig with BlockRanges := [] } : TSDBConfig).ShipConcurrency ≤ 0) ∧
     ({ defaultTSDBConfig with BlockRanges := [] } : TSDBConfig).BlockRanges = []) ∧
    TSDBConfig.validate { defaultTSDBConfig with BlockRanges := [] } =
      some Err.emptyBlockranges :=
  ⟨⟨by decide, rfl⟩,
    tsdbValidate_empty_block_ranges { defaultTSDBConfig with BlockRanges := [] }
      (by decide) (by decide) (by decide) (by decide) (by decide) (by decide) rfl⟩

/-- Claim C7: the streaming series batch size must be greater than 0, and
this check precedes every other check of BucketStoreConfig.Validate:
whatever the outcomes of the cache sub-validators, a non-positive batch
size yields errInvalidStreamingBatchSize. -/
theorem bucketStoreValidate_streaming_batch_size (cfg : BucketStoreConfig)
    (h : cfg.StreamingBatchSize ≤ 0) :
    BucketStoreConfig.validate cfg = some Err.invalidStreamingBatchSize := by
  unfold BucketStoreConfig.validate
  rw [if_pos h]

/-- Witness for C7: batch size 0 is rejected even though the index cache
sub-validator is failing at the same time (showing the batch check runs
first). -/
theorem bucketStoreValidate_streaming_batch_size_witness :
    ({ defaultBucketStoreConfig with
        StreamingBatchSize := 0, IndexCache := ⟨some (Err.sub 7)⟩ } : BucketStoreConfig).StreamingBatchSize ≤ 0 ∧
    BucketStoreConfig.validate
        { defaultBucketStoreConfig with
          StreamingBatchSize := 0, IndexCache := ⟨some (Err.sub 7)⟩ } =
      some Err.invalidStreamingBatchSize :=
  ⟨by decide,
    bucketStoreValidate_streaming_batch_size
      { defaultBucketStoreConfig with
        StreamingBatchSize := 0, IndexCache := ⟨some (Err.sub 7)⟩ }
      (by decide)⟩

/-- Claim C8: BlocksStorageConfig.Validate aggregates the first
sub-validator failure in the order bucket, TSDB, bucket store, and returns
nil exactly when all three succeed; equivalently it equals firstFailure of
the three results in that order. -/
theorem blocksStorageValidate_first_failure (cfg : BlocksStorageConfig) :
    BlocksStorageConfig.validate cfg =
      firstFailure [BucketConfig.validate cfg.Bucket, TSDBConfig.validate cfg.TSDB,
        BucketStoreConfig.validate cfg.BucketStore] := by
  unfold BlocksStorageConfig.validate
  rcases h1 : BucketConfig.validate cfg.Bucket with _ | e1
  · rcases h2 : TSDBConfig.validate cfg.TSDB with _ | e2
    · rcases h3 : BucketStoreConfig.validate cfg.BucketStore with _ | e3 <;>
        simp [firstFailure, h3]
    · simp [firstFailure]
  · simp [firstFailure]

/-- Claim C10: TSDBConfig.Validate is a pure check: the state-passing
translation returns the receiver unchanged in every branch and its result
component coincides with the functional translation, which, being a
function of the configuration alone, returns the same result on every
call with the same configuration. -/
theorem tsdbValidate_pure (cfg : TSDBConfig) :
    TSDBConfig.validateSt cfg = (TSDBConfig.validate cfg, cfg) := by
  unfold TSDBConfig.validateSt TSDBConfig.validate
  split
  · rfl
  · split
    · rfl
    · split
      · rfl
      · split
        · rfl
        · split
          · rfl
          · split
            · rfl
            · split
              · rfl
              · split <;> rfl

/-! ### Digit strings -/

/-- Printing then reading one digit is the identity below ten. -/
theorem digitVal_digitChar {d : Nat} (h : d < 10) : digitVal (digitChar d) = d := by
  interval_cases d <;> rfl

/-- Printed digits satisfy the digit test. -/
theorem isDigit_digitChar {d : Nat} (h : d < 10) : isDigit (digitChar d) = true := by
  interval_cases d <;> rfl

/-- The decimal print of a number is never empty. -/
theorem toDec_ne_nil (n : Nat) : toDec n ≠ [] := by
  unfold toDec
  split
  · simp
  · simp [Nat.digits_ne_nil_iff_ne_zero, *]

/-- Every character of a decimal print is a digit. -/
theorem mem_toDec {n : Nat} {c : Char} (h : c ∈ toDec n) : isDigit c = true := by
  unfold toDec at h
  split at h
  · rw [List.mem_singleton] at h
    subst h
    rfl
  · rw [List.mem_reverse] at h
    obtain ⟨d, hd, rfl⟩ := List.mem_map.mp h
    exact isDigit_digitChar (Nat.digits_lt_base (by norm_num) hd)

theorem valDec_nil (a : Nat) : valDec a [] = a := rfl

theorem valDec_cons (a : Nat) (c : Char) (t : List Char) :
    valDec a (c :: t) = valDec (a * 10 + digitVal c) t := rfl

theorem valDec_append (a : Nat) (l1 l2 : List Char) :
    valDec a (l1 ++ l2) = valDec (valDec a l1) l2 := by
  simp [valDec, List.foldl_append]

/-- Scanning digits never decreases the accumulator. -/
theorem le_valDec (a : Nat) (l : List Char) : a ≤ valDec a l := by
  induction l generalizing a with
  | nil => simp [valDec]
  | cons c t ih =>
    rw [valDec_cons]
    calc a ≤ a * 10 + digitVal c := by omega
    _ ≤ valDec (a * 10 + digitVal c) t := ih _

/-- Left-to-right digit scanning computes the printed value (Horner on the
reversed little-endian digit list). -/
theorem valDec_reverse_map (a : Nat) (l : List Nat) (h : ∀ d ∈ l, d < 10) :
    valDec a ((l.map digitChar).reverse) = a * 10 ^ l.length + Nat.ofDigits 10 l := by
  induction l generalizing a with
  | nil => simp [valDec, Nat.ofDigits]
  | cons d t ih =>
    have hd : d < 10 := h d (List.mem_cons_self ..)
    have ht : ∀ x ∈ t, x < 10 := fun x hx => h x (List.mem_cons_of_mem _ hx)
    simp only [List.map_cons, List.reverse_cons, valDec_append]
    rw [ih a ht, valDec_cons, valDec_nil, digitVal_digitChar hd, Nat.ofDigits_cons]
    simp only [List.length_cons]
    ring

/-- Reading back a decimal print gives the printed number. -/
theorem valDec_toDec (n : Nat) : valDec 0 (toDec n) = n := by
  unfold toDec
  split
  · subst ‹n = 0›
    rfl
  · rw [valDec_reverse_map 0 _ (fun d hd => Nat.digits_lt_base (by norm_num) hd)]
    simp [Nat.ofDigits_digits]

/-- A number below 10 ^ p prints in at most p digits. -/
theorem toDec_length_le {n p : Nat} (hp : 0 < p) (h : n < 10 ^ p) :
    (toDec n).length ≤ p := by
  unfold toDec
  split
  · simpa using hp
  · rw [List.length_reverse, List.length_map,
      Nat.digits_len 10 n (by norm_num) ‹¬n = 0›]
    have := Nat.log_lt_of_lt_pow ‹¬n = 0› h
    omega

theorem valDec_replicate_zero (a k : Nat) : valDec a (List.replicate k '0') = a * 10 ^ k := by
  induction k generalizing a with
  | zero => simp [valDec]
  | succ j ih =>
    rw [List.replicate_succ, valDec_cons, (show digitVal '0' = 0 from rfl), ih]
    ring

/-- Every character of a padded digit block is a digit. -/
theorem mem_padDec {f prec : Nat} {c : Char} (h : c ∈ padDec f prec) : isDigit c = true := by
  unfold padDec at h
  rcases List.mem_append.mp h with h | h
  · rw [List.eq_of_mem_replicate h]
    rfl
  · exact mem_toDec h

theorem padDec_length {f prec : Nat} (hp : 0 < prec) (hf : f < 10 ^ prec) :
    (padDec f prec).length = prec := by
  unfold padDec
  rw [List.length_append, List.length_replicate]
  have := toDec_length_le hp hf
  omega

theorem valDec_padDec (f prec : Nat) : valDec 0 (padDec f prec) = f := by
  unfold padDec
  rw [valDec_append, valDec_replicate_zero, Nat.zero_mul, valDec_toDec]

/-- A list is its trailing-zero trimming followed by zeros. -/
theorem trimZeros_append (l : List Char) :
    ∃ z, l = trimZeros l ++ List.replicate z '0' := by
  refine ⟨(l.reverse.takeWhile (fun c => c == '0')).length, ?_⟩
  have h1 : l.reverse.takeWhile (fun c => c == '0') ++
      l.reverse.dropWhile (fun c => c == '0') = l.reverse :=
    List.takeWhile_append_dropWhile ..
  have ht : (l.reverse.takeWhile (fun c => c == '0')).reverse =
      List.replicate (l.reverse.takeWhile (fun c => c == '0')).length '0' := by
    rw [List.eq_replicate_iff]
    constructor
    · simp
    · intro b hb
      rw [List.mem_reverse] at hb
      have := List.mem_takeWhile_imp hb
      simpa using this
  conv_lhs => rw [← List.reverse_reverse l, ← h1]
  rw [List.reverse_append, ht]
  rfl

theorem mem_trimZeros {l : List Char} {c : Char} (h : c ∈ trimZeros l) : c ∈ l := by
  obtain ⟨z, hz⟩ := trimZeros_append l
  rw [hz]
  exact List.mem_append_left _ h

/-- Structure of a nonzero printed fraction: a dot, then a nonempty
trimmed digit block whose value scaled by the dropped zeros is the
fraction. -/
theorem fracStr_spec {f prec : Nat} (hf0 : 0 < f) (hp : 0 < prec) (hf : f < 10 ^ prec) :
    ∃ tr z, fracStr f prec = '.' :: tr ∧ tr ≠ [] ∧ (∀ c ∈ tr, isDigit c = true) ∧
      tr.length + z = prec ∧ 0 < valDec 0 tr ∧ valDec 0 tr * 10 ^ z = f := by
  obtain ⟨z, hz⟩ := trimZeros_append (padDec f prec)
  have hval : valDec 0 (trimZeros (padDec f prec)) * 10 ^ z = f := by
    have hv := valDec_padDec f prec
    rw [hz, valDec_append, valDec_replicate_zero] at hv
    exact hv
  have hpos : 0 < valDec 0 (trimZeros (padDec f prec)) := by
    rcases Nat.eq_zero_or_pos (valDec 0 (trimZeros (padDec f prec))) with h0 | h0
    · rw [h0] at hval
      omega
    · exact h0
  refine ⟨trimZeros (padDec f prec), z, ?_, ?_, ?_, ?_, hpos, hval⟩
  · unfold fracStr
    rw [if_neg (by omega)]
  · intro hnil
    rw [hnil] at hpos
    simp [valDec] at hpos
  · intro c hc
    exact mem_padDec (mem_trimZeros hc)
  · have h1 : (padDec f prec).length = prec := padDec_length hp hf
    rw [hz] at h1
    simpa using h1

/-! ### The Go scanners -/

/-- leadingInt consumes exactly a digit block whose value stays within the
overflow bound and leaves a remainder that does not begin with a digit. -/
theorem leadingInt_spec (a : Nat) (ds rest : List Char)
    (hds : ∀ c ∈ ds, isDigit c = true)
    (hrest : ∀ c t, rest = c :: t → isDigit c = false)
    (hb : valDec a ds ≤ 2 ^ 63) :
    leadingInt a (ds ++ rest) = .ok (valDec a ds, rest) := by
  induction ds generalizing a with
  | nil =>
    simp only [List.nil_append, valDec_nil]
    cases rest with
    | nil => rfl
    | cons c t => simp [leadingInt, hrest c t rfl]
  | cons c ds ih =>
    have hc : isDigit c = true := hds c (List.mem_cons_self ..)
    have hchain : valDec (a * 10 + digitVal c) ds = valDec a (c :: ds) := rfl
    have hge : a * 10 + digitVal c ≤ valDec a (c :: ds) := by
      rw [← hchain]
      exact le_valDec _ _
    have hmul : a * 10 ≤ 2 ^ 63 := by omega
    have h1 : ¬(a > 2 ^ 63 / 10) := by
      have := (Nat.le_div_iff_mul_le (by norm_num : 0 < 10)).mpr hmul
      omega
    have h2 : ¬(a * 10 + digitVal c > 2 ^ 63) := by omega
    simp only [List.cons_append]
    rw [(show leadingInt a (c :: (ds ++ rest)) =
        if isDigit c then
          if a > 2 ^ 63 / 10 then .error ()
          else
            if a * 10 + digitVal c > 2 ^ 63 then .error ()
            else leadingInt (a * 10 + digitVal c) (ds ++ rest)
        else .ok (a, c :: (ds ++ rest)) from rfl)]
    rw [if_pos hc, if_neg h1, if_neg h2, ← hchain]
    exact ih _ (fun x hx => hds x (List.mem_cons_of_mem _ hx)) (hchain ▸ hb)

/-- leadingFraction consumes exactly a digit block whose value stays below
the freeze bound, multiplying the scale by ten per digit. -/
theorem leadingFraction_spec (a sc : Nat) (ds rest : List Char)
    (hds : ∀ c ∈ ds, isDigit c = true)
    (hrest : ∀ c t, rest = c :: t → isDigit c = false)
    (hb : valDec a ds ≤ (2 ^ 63 - 1) / 10) :
    leadingFraction a sc false (ds ++ rest) = (valDec a ds, sc * 10 ^ ds.length, rest) := by
  induction ds generalizing a sc with
  | nil =>
    simp only [List.nil_append, valDec_nil, List.length_nil, pow_zero, Nat.mul_one]
    cases rest with
    | nil => rfl
    | cons c t => simp [leadingFraction, hrest c t rfl]
  | cons c ds ih =>
    have hc : isDigit c = true := hds c (List.mem_cons_self ..)
    have hchain : valDec (a * 10 + digitVal c) ds = valDec a (c :: ds) := rfl
    have hge : a * 10 + digitVal c ≤ valDec a (c :: ds) := by
      rw [← hchain]
      exact le_valDec _ _
    have h1 : ¬(a > (2 ^ 63 - 1) / 10) := by
      have := le_valDec a (c :: ds)
      omega
    have h2 : ¬(a * 10 + digitVal c > 2 ^ 63) := by
      have : (2 ^ 63 - 1) / 10 ≤ 2 ^ 63 := by norm_num
      omega
    simp only [List.cons_append]
    rw [(show leadingFraction a sc false (c :: (ds ++ rest)) =
        if isDigit c then
          if a > (2 ^ 63 - 1) / 10 then leadingFraction a sc true (ds ++ rest)
          else
            if a * 10 + digitVal c > 2 ^ 63 then leadingFraction a sc true (ds ++ rest)
            else leadingFraction (a * 10 + digitVal c) (sc * 10) false (ds ++ rest)
        else (a, sc, c :: (ds ++ rest)) from rfl)]
    rw [if_pos hc, if_neg h1, if_neg h2]
    rw [ih _ _ (fun x hx => hds x (List.mem_cons_of_mem _ hx)) (hchain ▸ hb)]
    rw [hchain, List.length_cons]
    have : sc * 10 * 10 ^ ds.length = sc * 10 ^ (ds.length + 1) := by ring
    rw [this]

/-- takeWhile and dropWhile split a concatenation whose first block
satisfies the predicate and whose second block starts by refuting it. -/
theorem takeWhile_dropWhile_append {p : Char → Bool} (l1 l2 : List Char)
    (h1 : ∀ c ∈ l1, p c = true)
    (h2 : ∀ c t, l2 = c :: t → p c = false) :
    (l1 ++ l2).takeWhile p = l1 ∧ (l1 ++ l2).dropWhile p = l2 := by
  induction l1 with
  | nil =>
    simp only [List.nil_append]
    cases l2 with
    | nil => simp
    | cons c t => simp [List.takeWhile_cons, List.dropWhile_cons, h2 c t rfl]
  | cons c l1 ih =>
    have hc := h1 c (List.mem_cons_self ..)
    have hih := ih (fun x hx => h1 x (List.mem_cons_of_mem _ hx))
    simp [List.takeWhile_cons, List.dropWhile_cons, hc, hih.1, hih.2]

theorem isUnitEnd_false_not_digit {c : Char} (h : isUnitEnd c = false) : isDigit c = false := by
  unfold isUnitEnd at h
  exact (Bool.or_eq_false_iff.mp h).2

theorem isUnitEnd_false_ne_dot {c : Char} (h : isUnitEnd c = false) : ¬(c = '.') := by
  unfold isUnitEnd at h
  have := (Bool.or_eq_false_iff.mp h).1
  simpa using this

theorem isDigit_isUnitEnd {c : Char} (h : isDigit c = true) : isUnitEnd c = true := by
  unfold isUnitEnd
  rw [h]
  simp

theorem consumeFraction_not_dot {s1 : List Char} (h : s1.head? ≠ some '.') :
    consumeFraction s1 = (0, 1, s1, false) := by
  unfold consumeFraction
  rw [if_neg h]

theorem consumeFraction_dot {t s2 : List Char} {f sc : Nat}
    (h : leadingFraction 0 1 false t = (f, sc, s2)) :
    consumeFraction ('.' :: t) = (f, sc, s2, decide (s2.length ≠ t.length)) := by
  unfold consumeFraction
  simp [h]

/-- The value of one parsed component of a formatted duration: an integer
block, an optional printed fraction, a unit token, and a remainder that is
empty or starts the next component with a digit. -/
theorem component_spec (n f prec uval : Nat) (unit rest : List Char)
    (hp : 0 < prec) (hprec9 : prec ≤ 9) (hf : f < 10 ^ prec)
    (hfu : 0 < f → uval = 10 ^ prec)
    (hum : unitMap unit = some uval)
    (huval : 0 < uval)
    (hu1 : unit ≠ [])
    (huc : ∀ c ∈ unit, isUnitEnd c = false)
    (hrest : ∀ c t, rest = c :: t → isDigit c = true)
    (hbound : n * uval + f ≤ 2 ^ 63) :
    component (toDec n ++ (fracStr f prec ++ (unit ++ rest))) = .ok (n * uval + f, rest) := by
  obtain ⟨c0, t0, htd⟩ := List.exists_cons_of_ne_nil (toDec_ne_nil n)
  have hc0 : isDigit c0 = true := mem_toDec (htd ▸ List.mem_cons_self ..)
  obtain ⟨u0, ut, hu⟩ := List.exists_cons_of_ne_nil hu1
  have hu0 : isUnitEnd u0 = false := huc u0 (hu ▸ List.mem_cons_self ..)
  have hurhead : ∀ c t, unit ++ rest = c :: t → isDigit c = false := by
    intro c t heq
    rw [hu, List.cons_append] at heq
    injection heq with h1 _
    rw [← h1]
    exact isUnitEnd_false_not_digit hu0
  have hnval : n ≤ 2 ^ 63 := by
    have : n * 1 ≤ n * uval := Nat.mul_le_mul_left n huval
    omega
  have hndiv : ¬(n > 2 ^ 63 / uval) := by
    have : n ≤ 2 ^ 63 / uval := (Nat.le_div_iff_mul_le huval).mpr (by omega)
    omega
  have htwp : ∀ c ∈ unit, (!(isUnitEnd c)) = true := by
    intro c hcmem
    rw [huc c hcmem]
    rfl
  have hdwp : ∀ c t, rest = c :: t → (!(isUnitEnd c)) = false := by
    intro c t heq
    rw [isDigit_isUnitEnd (hrest c t heq)]
    rfl
  obtain ⟨htw, hdw⟩ := takeWhile_dropWhile_append unit rest htwp hdwp
  by_cases hf0 : f = 0
  · -- no printed fraction
    subst hf0
    have hfs : fracStr 0 prec = [] := by
      unfold fracStr
      rw [if_pos rfl]
    rw [hfs, List.nil_append]
    have lInt : leadingInt 0 (toDec n ++ (unit ++ rest)) = .ok (n, unit ++ rest) := by
      have := leadingInt_spec 0 (toDec n) (unit ++ rest)
        (fun c hcmem => mem_toDec hcmem) hurhead
        (by rw [valDec_toDec]; omega)
      rwa [valDec_toDec] at this
    have hs : toDec n ++ (unit ++ rest) = c0 :: (t0 ++ (unit ++ rest)) := by
      rw [htd, List.cons_append]
    rw [hs] at lInt ⊢
    have hprelen : (unit ++ rest).length ≠ (c0 :: (t0 ++ (unit ++ rest))).length := by
      simp only [List.length_cons, List.length_append]
      omega
    have hcf : consumeFraction (unit ++ rest) = (0, 1, unit ++ rest, false) := by
      apply consumeFraction_not_dot
      rw [hu, List.cons_append]
      simp only [List.head?_cons, ne_eq, Option.some.injEq]
      exact isUnitEnd_false_ne_dot hu0
    unfold component
    simp only [List.head?_cons]
    rw [if_neg (not_not_intro (Or.inr hc0))]
    rw [lInt]
    simp only []
    rw [hcf]
    simp only [decide_eq_true hprelen]
    rw [if_neg (by simp)]
    simp only [htw, hdw]
    rw [if_neg hu1, hum]
    simp only []
    rw [if_neg hndiv, if_neg (by omega : ¬((0 : Nat) > 0))]
    simp
  · -- printed fraction present
    have hfpos : 0 < f := by omega
    obtain ⟨tr, z, hfs, htrne, htrdig, hlen, htrpos, htrval⟩ := fracStr_spec hfpos hp hf
    have hftr : valDec 0 tr ≤ f := by
      have h10 : 0 < 10 ^ z := Nat.pos_pow_of_pos z (by norm_num)
      calc valDec 0 tr = valDec 0 tr * 1 := by ring
      _ ≤ valDec 0 tr * 10 ^ z := Nat.mul_le_mul_left _ h10
      _ = f := htrval
    have hf9 : f < 10 ^ 9 := by
      have : (10 : Nat) ^ prec ≤ 10 ^ 9 := Nat.pow_le_pow_right (by norm_num) hprec9
      omega
    have lFrac : leadingFraction 0 1 false (tr ++ (unit ++ rest)) =
        (valDec 0 tr, 1 * 10 ^ tr.length, unit ++ rest) := by
      apply leadingFraction_spec 0 1 tr (unit ++ rest) htrdig hurhead
      calc valDec 0 tr ≤ f := hftr
        _ ≤ (2 ^ 63 - 1) / 10 := by
          have h19 : (10 : Nat) ^ 9 = 1000000000 := by norm_num
          rw [h19] at hf9
          omega
    rw [hfs]
    have hR : ('.' :: tr) ++ (unit ++ rest) = '.' :: (tr ++ (unit ++ rest)) := by
      rw [List.cons_append]
    rw [hR]
    have lInt : leadingInt 0 (toDec n ++ '.' :: (tr ++ (unit ++ rest))) =
        .ok (n, '.' :: (tr ++ (unit ++ rest))) := by
      have := leadingInt_spec 0 (toDec n) ('.' :: (tr ++ (unit ++ rest)))
        (fun c hcmem => mem_toDec hcmem)
        (by
          intro c t heq
          injection heq with h1 _
          rw [← h1]
          decide)
        (by rw [valDec_toDec]; omega)
      rwa [valDec_toDec] at this
    have hs : toDec n ++ '.' :: (tr ++ (unit ++ rest)) =
        c0 :: (t0 ++ '.' :: (tr ++ (unit ++ rest))) := by
      rw [htd, List.cons_append]
    rw [hs] at lInt ⊢
    have hcf : consumeFraction ('.' :: (tr ++ (unit ++ rest))) =
        (valDec 0 tr, 1 * 10 ^ tr.length, unit ++ rest,
          decide ((unit ++ rest).length ≠ (tr ++ (unit ++ rest)).length)) :=
      consumeFraction_dot lFrac
    have hpostlen : (unit ++ rest).length ≠ (tr ++ (unit ++ rest)).length := by
      simp only [List.length_append]
      have : 0 < tr.length := List.length_pos.mpr htrne
      omega
    have hfracval : valDec 0 tr * uval / (1 * 10 ^ tr.length) = f := by
      rw [hfu hfpos, one_mul, ← hlen, pow_add,
        (show valDec 0 tr * (10 ^ tr.length * 10 ^ z) =
          10 ^ tr.length * (valDec 0 tr * 10 ^ z) by ring),
        Nat.mul_div_cancel_left _ (Nat.pos_pow_of_pos _ (by norm_num))]
      exact htrval
    unfold component
    simp only [List.head?_cons]
    rw [if_neg (not_not_intro (Or.inr hc0))]
    rw [lInt]
    simp only []
    rw [hcf]
    simp only [decide_eq_true hpostlen]
    rw [if_neg (by simp)]
    simp only [htw, hdw]
    rw [if_neg hu1, hum]
    simp only []
    rw [if_neg hndiv, if_pos htrpos, hfracval]
    rw [if_neg (by omega : ¬(n * uval + f > 2 ^ 63))]

/-! ### The parse loop on formatted durations -/

theorem parseLoop_nil (fuel d : Nat) : parseLoop fuel d [] = .ok d := by
  cases fuel <;> rfl

theorem parseLoop_step (fuel d v : Nat) (s rest : List Char) (hs : s ≠ [])
    (h : component s = .ok (v, rest)) (hd : ¬(d + v > 2 ^ 63)) :
    parseLoop (fuel + 1) d s = parseLoop fuel (d + v) rest := by
  obtain ⟨c, t, rfl⟩ := List.exists_cons_of_ne_nil hs
  rw [(show parseLoop (fuel + 1) d (c :: t) =
      match component (c :: t) with
      | .error _ => .error ()
      | .ok (v, rest) =>
        if d + v > 2 ^ 63 then .error () else parseLoop fuel (d + v) rest from rfl)]
  rw [h]
  simp only []
  rw [if_neg hd]

/-- The head of a printed block is a digit. -/
theorem head_digit_of_toDec_append (n : Nat) (R : List Char) :
    ∀ c t, toDec n ++ R = c :: t → isDigit c = true := by
  intro c t heq
  obtain ⟨c0, t0, htd⟩ := List.exists_cons_of_ne_nil (toDec_ne_nil n)
  rw [htd, List.cons_append] at heq
  injection heq with h1 _
  rw [← h1]
  exact mem_toDec (htd ▸ List.mem_cons_self ..)

/-- Running the ParseDuration loop over the unsigned core of a printed
duration recovers the printed nanosecond count. -/
theorem parseLoop_durCore (u fuel : Nat) (hu : u ≤ 2 ^ 63) :
    parseLoop (fuel + 3) 0 (durCore u) = .ok u := by
  have hnilrest : ∀ c t, ([] : List Char) = c :: t → isDigit c = true := by
    intro c t h
    exact absurd h (by simp)
  unfold durCore
  by_cases h9 : u < 1000000000
  · rw [if_pos h9]
    by_cases h0 : u = 0
    · subst h0
      rw [if_pos rfl]
      have hcomp := component_spec 0 0 9 1000000000 ['s'] []
        (by norm_num) (by norm_num) (by norm_num)
        (by omega) (by decide) (by norm_num) (by decide) (by decide) hnilrest
        (by norm_num)
      rw [(show toDec 0 ++ (fracStr 0 9 ++ (['s'] ++ [])) = ['0', 's'] from rfl)] at hcomp
      rw [parseLoop_step (fuel + 2) 0 _ _ _ (by simp) hcomp (by norm_num), parseLoop_nil]
    · rw [if_neg h0]
      by_cases hns : u < 1000
      · rw [if_pos hns]
        have hcomp := component_spec u 0 1 1 ['n', 's'] []
          (by norm_num) (by norm_num) (by norm_num)
          (by omega) (by decide) (by norm_num) (by decide) (by decide) hnilrest
          (by omega)
        rw [List.append_nil, (show fracStr 0 1 = [] from rfl), List.nil_append] at hcomp
        rw [parseLoop_step (fuel + 2) 0 _ _ _ (by simp) hcomp (by omega), parseLoop_nil]
        simp only [Except.ok.injEq]
        omega
      · rw [if_neg hns]
        by_cases hmus : u < 1000000
        · rw [if_pos hmus]
          have hcomp := component_spec (u / 1000) (u % 1000) 3 1000 ['µ', 's'] []
            (by norm_num) (by norm_num)
            (by rw [(show (10 : Nat) ^ 3 = 1000 from by norm_num)]; omega)
            (fun _ => by norm_num)
            (by decide) (by norm_num) (by decide) (by decide) hnilrest
            (by omega)
          rw [List.append_nil, ← List.append_assoc] at hcomp
          rw [parseLoop_step (fuel + 2) 0 _ _ _ (by simp) hcomp (by omega), parseLoop_nil]
          simp only [Except.ok.injEq]
          omega
        · rw [if_neg hmus]
          have hcomp := component_spec (u / 1000000) (u % 1000000) 6 1000000 ['m', 's'] []
            (by norm_num) (by norm_num)
            (by rw [(show (10 : Nat) ^ 6 = 1000000 from by norm_num)]; omega)
            (fun _ => by norm_num)
            (by decide) (by norm_num) (by decide) (by decide) hnilrest
            (by omega)
          rw [List.append_nil, ← List.append_assoc] at hcomp
          rw [parseLoop_step (fuel + 2) 0 _ _ _ (by simp) hcomp (by omega), parseLoop_nil]
          simp only [Except.ok.injEq]
          omega
  · rw [if_neg h9]
    have hscomp := component_spec (u / 1000000000 % 60) (u % 1000000000) 9 1000000000 ['s'] []
      (by norm_num) (by norm_num)
      (by rw [(show (10 : Nat) ^ 9 = 1000000000 from by norm_num)]; omega)
      (fun _ => by norm_num)
      (by decide) (by norm_num) (by decide) (by decide) hnilrest
      (by omega)
    rw [List.append_nil, ← List.append_assoc] at hscomp
    by_cases hm : u / 1000000000 / 60 = 0
    · rw [if_pos hm]
      rw [parseLoop_step (fuel + 2) 0 _ _ _ (by simp) hscomp (by omega), parseLoop_nil]
      simp only [Except.ok.injEq]
      omega
    · rw [if_neg hm]
      have hshead : ∀ c t,
          toDec (u / 1000000000 % 60) ++ fracStr (u % 1000000000) 9 ++ ['s'] = c :: t →
            isDigit c = true := by
        rw [List.append_assoc]
        exact head_digit_of_toDec_append _ _
      have hmcomp := component_spec (u / 1000000000 / 60 % 60) 0 1 60000000000 ['m']
        (toDec (u / 1000000000 % 60) ++ fracStr (u % 1000000000) 9 ++ ['s'])
        (by norm_num) (by norm_num) (by norm_num)
        (by omega) (by decide) (by norm_num) (by decide) (by decide) hshead
        (by omega)
      rw [(show fracStr 0 1 = [] from rfl), List.nil_append, ← List.append_assoc] at hmcomp
      by_cases hh : u / 1000000000 / 60 / 60 = 0
      · rw [if_pos hh]
        rw [parseLoop_step (fuel + 2) 0 _ _ _ (by simp) hmcomp (by omega)]
        rw [parseLoop_step (fuel + 1) _ _ _ _ (by simp [toDec_ne_nil]) hscomp (by omega)]
        rw [parseLoop_nil]
        simp only [Except.ok.injEq]
        omega
      · rw [if_neg hh]
        have hmhead : ∀ c t,
            toDec (u / 1000000000 / 60 % 60) ++ ['m'] ++
              (toDec (u / 1000000000 % 60) ++ fracStr (u % 1000000000) 9 ++ ['s']) = c :: t →
              isDigit c = true := by
          rw [List.append_assoc]
          exact head_digit_of_toDec_append _ _
        have hhcomp := component_spec (u / 1000000000 / 60 / 60) 0 1 3600000000000 ['h']
          (toDec (u / 1000000000 / 60 % 60) ++ ['m'] ++
            (toDec (u / 1000000000 % 60) ++ fracStr (u % 1000000000) 9 ++ ['s']))
          (by norm_num) (by norm_num) (by norm_num)
          (by omega) (by decide) (by norm_num) (by decide) (by decide) hmhead
          (by omega)
        rw [(show fracStr 0 1 = [] from rfl), List.nil_append, ← List.append_assoc] at hhcomp
        rw [parseLoop_step (fuel + 2) 0 _ _ _ (by simp) hhcomp (by omega)]
        rw [parseLoop_step (fuel + 1) _ _ _ _ (by simp [toDec_ne_nil]) hmcomp (by omega)]
        rw [parseLoop_step fuel _ _ _ _ (by simp [toDec_ne_nil]) hscomp (by omega)]
        rw [parseLoop_nil]
        simp only [Except.ok.injEq]
        omega

/-! ### Shape of a printed duration -/

/-- Every printed core is a digit block followed by a nonempty tail. -/
theorem durCore_shape (u : Nat) : ∃ n R, durCore u = toDec n ++ R ∧ R ≠ [] := by
  unfold durCore
  split
  · split
    · exact ⟨0, ['s'], rfl, by simp⟩
    · split
      · exact ⟨u, ['n', 's'], rfl, by simp⟩
      · split
        · exact ⟨u / 1000, fracStr (u % 1000) 3 ++ ['µ', 's'],
            by rw [List.append_assoc], by simp⟩
        · exact ⟨u / 1000000, fracStr (u % 1000000) 6 ++ ['m', 's'],
            by rw [List.append_assoc], by simp⟩
  · split
    · exact ⟨u / 1000000000 % 60, fracStr (u % 1000000000) 9 ++ ['s'],
        by rw [List.append_assoc], by simp⟩
    · split
      · exact ⟨u / 1000000000 / 60 % 60,
          ['m'] ++ (toDec (u / 1000000000 % 60) ++ fracStr (u % 1000000000) 9 ++ ['s']),
          by rw [List.append_assoc], by simp⟩
      · exact ⟨u / 1000000000 / 60 / 60,
          ['h'] ++ (toDec (u / 1000000000 / 60 % 60) ++ ['m'] ++
            (toDec (u / 1000000000 % 60) ++ fracStr (u % 1000000000) 9 ++ ['s'])),
          by rw [List.append_assoc], by simp⟩

theorem durCore_ne_nil (u : Nat) : durCore u ≠ [] := by
  obtain ⟨n, R, hq, hR⟩ := durCore_shape u
  rw [hq]
  simp [hR]

theorem durCore_length_ge_two (u : Nat) : 2 ≤ (durCore u).length := by
  obtain ⟨n, R, hq, hR⟩ := durCore_shape u
  rw [hq, List.length_append]
  have h1 : 0 < (toDec n).length := List.length_pos.mpr (toDec_ne_nil n)
  have h2 : 0 < R.length := List.length_pos.mpr hR
  omega

theorem durCore_ne_zero_list (u : Nat) : durCore u ≠ ['0'] := by
  intro h
  have := durCore_length_ge_two u
  rw [h] at this
  simp at this

theorem durCore_head_digit (u : Nat) : ∀ c t, durCore u = c :: t → isDigit c = true := by
  obtain ⟨n, R, hq, _⟩ := durCore_shape u
  rw [hq]
  exact head_digit_of_toDec_append n R

theorem stripSign_digit {c : Char} (t : List Char) (h : isDigit c = true) :
    stripSign (c :: t) = (false, c :: t) := by
  unfold stripSign
  simp only [List.head?_cons]
  rw [if_neg]
  rintro (rfl | rfl)
  · exact absurd h (by decide)
  · exact absurd h (by decide)

theorem stripSign_minus (t : List Char) : stripSign ('-' :: t) = (true, t) := rfl

/-- ParseDuration inverts Duration.String on every int64 duration. -/
theorem parseDuration_durationString (d : Int) (h1 : -(2 ^ 63) ≤ d) (h2 : d < 2 ^ 63) :
    parseDuration (durationString d) = .ok d := by
  have hnat : d.natAbs ≤ 2 ^ 63 := by omega
  have hlen := durCore_length_ge_two d.natAbs
  by_cases hneg : d < 0
  · rw [durationString, if_pos hneg]
    unfold parseDuration
    rw [stripSign_minus]
    simp only []
    rw [if_neg (durCore_ne_zero_list _), if_neg (durCore_ne_nil _)]
    rw [(show (durCore d.natAbs).length + 1 = ((durCore d.natAbs).length - 2) + 3 by omega)]
    rw [parseLoop_durCore _ _ hnat]
    simp only []
    rw [if_pos trivial]
    simp only [Except.ok.injEq]
    omega
  · rw [durationString, if_neg hneg]
    unfold parseDuration
    obtain ⟨c, t, hct⟩ : ∃ c t, durCore d.natAbs = c :: t :=
      List.exists_cons_of_ne_nil (durCore_ne_nil _)
    rw [hct, stripSign_digit t (durCore_head_digit _ c t hct), ← hct]
    simp only []
    rw [if_neg (durCore_ne_zero_list _), if_neg (durCore_ne_nil _)]
    rw [(show (durCore d.natAbs).length + 1 = ((durCore d.natAbs).length - 2) + 3 by omega)]
    rw [parseLoop_durCore _ _ hnat]
    simp only []
    rw [if_neg (by simp), if_neg (by omega : ¬(d.natAbs > 2 ^ 63 - 1))]
    simp only [Except.ok.injEq]
    omega

/-! ### Comma splitting and joining -/

theorem splitComma_cons (c : Char) (t : List Char) :
    splitComma (c :: t) =
      match splitComma t with
      | [] => []
      | h :: r => if c = ',' then [] :: h :: r else (c :: h) :: r := rfl

theorem splitComma_ne_nil (l : List Char) : splitComma l ≠ [] := by
  induction l with
  | nil => simp [splitComma]
  | cons c t ih =>
    obtain ⟨h0, r0, hr⟩ := List.exists_cons_of_ne_nil ih
    rw [splitComma_cons, hr]
    simp only []
    split <;> simp

theorem splitComma_no_comma (l : List Char) (h : ∀ c ∈ l, c ≠ ',') : splitComma l = [l] := by
  induction l with
  | nil => rfl
  | cons c t ih =>
    rw [splitComma_cons, ih (fun x hx => h x (List.mem_cons_of_mem _ hx))]
    simp only []
    rw [if_neg (h c (List.mem_cons_self ..))]

theorem splitComma_append (x r : List Char) (hx : ∀ c ∈ x, c ≠ ',') :
    splitComma (x ++ ',' :: r) = x :: splitComma r := by
  induction x with
  | nil =>
    simp only [List.nil_append]
    obtain ⟨h0, r0, hr⟩ := List.exists_cons_of_ne_nil (splitComma_ne_nil r)
    rw [splitComma_cons, hr]
    simp only []
    rw [if_pos trivial, ← hr]
  | cons c x ih =>
    simp only [List.cons_append]
    rw [splitComma_cons, ih (fun y hy => hx y (List.mem_cons_of_mem _ hy))]
    simp only []
    rw [if_neg (hx c (List.mem_cons_self ..))]

theorem splitComma_joinComma (xs : List (List Char)) (hne : xs ≠ [])
    (hc : ∀ l ∈ xs, ∀ c ∈ l, c ≠ ',') : splitComma (joinComma xs) = xs := by
  induction xs with
  | nil => exact absurd rfl hne
  | cons x xs ih =>
    cases xs with
    | nil => exact splitComma_no_comma x (hc x (List.mem_cons_self ..))
    | cons y ys =>
      rw [(show joinComma (x :: y :: ys) = x ++ ',' :: joinComma (y :: ys) from rfl)]
      rw [splitComma_append x _ (hc x (List.mem_cons_self ..))]
      rw [ih (by simp) (fun l hl => hc l (List.mem_cons_of_mem _ hl))]

theorem mem_fracStr {f prec : Nat} {c : Char} (h : c ∈ fracStr f prec) :
    c = '.' ∨ isDigit c = true := by
  unfold fracStr at h
  split at h
  · simp at h
  · rcases List.mem_cons.mp h with rfl | h
    · exact Or.inl rfl
    · exact Or.inr (mem_padDec (mem_trimZeros h))

/-- No printed duration core contains a comma. -/
theorem not_comma_mem_durCore (u : Nat) : ',' ∉ durCore u := by
  intro hc
  have hnd : ¬isDigit ',' = true := by decide
  have hfr : ∀ {f prec : Nat}, ',' ∈ fracStr f prec → False := by
    intro f prec hm
    rcases mem_fracStr hm with h | h
    · exact absurd h (by decide)
    · exact hnd h
  unfold durCore at hc
  split at hc
  · split at hc
    · exact absurd hc (by decide)
    · split at hc
      · rcases List.mem_append.mp hc with h | h
        · exact hnd (mem_toDec h)
        · exact absurd h (by decide)
      · split at hc
        · rcases List.mem_append.mp hc with h | h
          · rcases List.mem_append.mp h with h | h
            · exact hnd (mem_toDec h)
            · exact hfr h
          · exact absurd h (by decide)
        · rcases List.mem_append.mp hc with h | h
          · rcases List.mem_append.mp h with h | h
            · exact hnd (mem_toDec h)
            · exact hfr h
          · exact absurd h (by decide)
  · split at hc
    · rcases List.mem_append.mp hc with h | h
      · rcases List.mem_append.mp h with h | h
        · exact hnd (mem_toDec h)
        · exact hfr h
      · exact absurd h (by decide)
    · split at hc
      · rcases List.mem_append.mp hc with h | h
        · rcases List.mem_append.mp h with h | h
          · exact hnd (mem_toDec h)
          · exact absurd h (by decide)
        · rcases List.mem_append.mp h with h | h
          · rcases List.mem_append.mp h with h | h
            · exact hnd (mem_toDec h)
            · exact hfr h
          · exact absurd h (by decide)
      · rcases List.mem_append.mp hc with h | h
        · rcases List.mem_append.mp h with h | h
          · exact hnd (mem_toDec h)
          · exact absurd h (by decide)
        · rcases List.mem_append.mp h with h | h
          · rcases List.mem_append.mp h with h | h
            · exact hnd (mem_toDec h)
            · exact absurd h (by decide)
          · rcases List.mem_append.mp h with h | h
            · rcases List.mem_append.mp h with h | h
              · exact hnd (mem_toDec h)
              · exact hfr h
            · exact absurd h (by decide)

theorem not_comma_mem_durationString (d : Int) : ',' ∉ durationString d := by
  unfold durationString
  split
  · intro hc
    rcases List.mem_cons.mp hc with h | h
    · exact absurd h (by decide)
    · exact not_comma_mem_durCore _ h
  · exact not_comma_mem_durCore _

theorem parseList_map (d : List Int) (hrange : ∀ x ∈ d, -(2 ^ 63) ≤ x ∧ x < 2 ^ 63) :
    parseList (d.map durationString) = .ok d := by
  induction d with
  | nil => rfl
  | cons x xs ih =>
    simp only [List.map_cons]
    unfold parseList
    rw [parseDuration_durationString x (hrange x (List.mem_cons_self ..)).1
      (hrange x (List.mem_cons_self ..)).2]
    rw [ih (fun y hy => hrange y (List.mem_cons_of_mem _ hy))]

/-- Claim C9: DurationList round-trips through its string form: for every
non-empty DurationList of int64 durations, calling Set on the string
produced by String succeeds and returns the same list. -/
theorem durationList_set_string_roundtrip (d : DurationList) (hne : d ≠ [])
    (hrange : ∀ x ∈ d, -(2 ^ 63) ≤ x ∧ x < 2 ^ 63) :
    DurationList.set (DurationList.string d) = .ok d := by
  unfold DurationList.set DurationList.string
  rw [splitComma_joinComma (d.map durationString) (by simp [hne])]
  · exact parseList_map d hrange
  · intro l hl c hcl hceq
    subst hceq
    obtain ⟨x, _, rfl⟩ := List.mem_map.mp hl
    exact not_comma_mem_durationString x hcl

/-- Witness for C9 on the list 2h, minus 1m30s, 1.5µs. -/
theorem durationList_set_string_roundtrip_witness :
    (([7200000000000, -90000000000, 1500] : DurationList) ≠ [] ∧
     ∀ x ∈ ([7200000000000, -90000000000, 1500] : DurationList),
       -(2 ^ 63) ≤ x ∧ x < 2 ^ 63) ∧
    DurationList.set (DurationList.string [7200000000000, -90000000000, 1500]) =
      .ok [7200000000000, -90000000000, 1500] :=
  ⟨⟨by decide, by decide⟩,
    durationList_set_string_roundtrip _ (by decide) (by decide)⟩

end Mimir
